import Mathlib

/-!
Verification of the reconciliation/alignment core of `soulver-cli-zipper`
(src/src/soulver.rs) against its design specification.

Strings are embedded as `List Char` (Rust strings are sequences of Unicode
scalar values; `chars().count()` is `List.length`).  The external `soulver`
evaluator process is an opaque collaborator and is modelled as an oracle
function `Str → Option EvalResult`, where `none` stands for a spawn failure
(`Command::output()` returning `Err`), `success` is the exit status check
and `stdout` is `some s` when the captured stdout decodes as UTF-8 text `s`
and `none` when decoding fails.
-/

/-- A Rust string, embedded as its sequence of Unicode scalar values. -/
abbrev Str : Type := List Char

/-- Strip one trailing carriage return, as Rust's `lines()` does to a
line-feed-terminated segment (`strip_suffix('\r')`). -/
def stripCR (l : Str) : Str :=
  if l.getLast? = some '\r' then l.dropLast else l

/-- Rust `str::lines`: split at `'\n'`, dropping one `'\r'` that immediately
precedes a `'\n'`; the final line ending is optional, and an unterminated
final segment keeps any trailing `'\r'`.  The empty string has no lines. -/
def strLines : Str → List Str
  | [] => []
  | '\r' :: '\n' :: cs => [] :: strLines cs
  | '\n' :: cs => [] :: strLines cs
  | c :: cs =>
    match strLines cs with
    | [] => [[c]]
    | l :: ls => (c :: l) :: ls

/-- The Unicode `White_Space` property, which Rust's `char::is_whitespace`
(and hence `str::trim_end`) tests. -/
def isRustWhitespace (c : Char) : Bool :=
  (0x9 ≤ c.val && c.val ≤ 0xd) || c.val = 0x20 || c.val = 0x85 || c.val = 0xa0 ||
    c.val = 0x1680 || (0x2000 ≤ c.val && c.val ≤ 0x200a) || c.val = 0x2028 ||
    c.val = 0x2029 || c.val = 0x202f || c.val = 0x205f || c.val = 0x3000

/-- Rust `str::trim_end`: remove trailing whitespace characters. -/
def trimEnd (s : Str) : Str :=
  (s.reverse.dropWhile isRustWhitespace).reverse

/-- The exit points of the pipeline in soulver.rs: a failed process spawn
(`Command::output()?`), a non-zero exit status (`bail!`), invalid UTF-8 on
stdout (`str::from_utf8(..)?`), and the `ensure!` in `run_soulver_zipped`
firing because input and output line counts differ. -/
inductive SoulverError : Type
  | spawnError : SoulverError
  | exitError : SoulverError
  | decodingError : SoulverError
  | misalignment : SoulverError
deriving DecidableEq, Repr

/-- The observable result of one invocation of the external `soulver`
process: its exit-status success flag and its stdout, already abstracted to
`some text` when the bytes decode as UTF-8 and `none` when they do not. -/
structure EvalResult : Type where
  success : Bool
  stdout : Option Str
deriving DecidableEq, Repr

/-- An oracle standing for the external `soulver` binary: maps the text
passed on the command line to the process outcome (`none` = spawn failure). -/
abbrev SoulverOracle : Type := Str → Option EvalResult

/-- soulver.rs `run_raw_soulver`: invoke the evaluator, fail on spawn error,
non-zero exit, or undecodable stdout; otherwise return stdout with one
trailing `'\n'` removed when present (`strip_suffix('\n').unwrap_or(..)`). -/
def run_raw_soulver (soulver : SoulverOracle) (file : Str) : Except SoulverError Str :=
  match soulver file with
  | none => .error .spawnError
  | some output =>
    if output.success = false then .error .exitError
    else
      match output.stdout with
      | none => .error .decodingError
      | some stdout =>
        .ok (if stdout.getLast? = some '\n' then stdout.dropLast else stdout)

/-- soulver.rs `get_number_of_initial_newlines`'s `take_while` predicate:
the line is empty, or starts with `'#'`, or starts with `"//"`. -/
def isBlankOrComment (line : Str) : Bool :=
  line.isEmpty || ['#'].isPrefixOf line || ['/', '/'].isPrefixOf line

/-- soulver.rs `get_number_of_initial_newlines`: the number of consecutive
leading lines that are blank or comments. -/
def get_number_of_initial_newlines (lines : List Str) : Nat :=
  (lines.takeWhile isBlankOrComment).length

/-- The repair step inside soulver.rs `run_soulver` (lines 33-36): when
`initial_newlines > 0`, prepend that many `'\n'` characters to the output
(`output.insert_str(0, &"\n".repeat(initial_newlines))`). -/
def repair (rawOutput : Str) (leadingCount : Nat) : Str :=
  if leadingCount > 0 then List.replicate leadingCount '\n' ++ rawOutput else rawOutput

/-- soulver.rs `run_soulver`: trim the input, run the raw evaluator, and
prepend the inferred number of missing leading newlines. -/
def run_soulver (soulver : SoulverOracle) (file : Str) : Except SoulverError Str :=
  let trimmed_input := trimEnd file
  match run_raw_soulver soulver trimmed_input with
  | .error e => .error e
  | .ok output =>
    let initial_newlines := get_number_of_initial_newlines (strLines trimmed_input)
    .ok (repair output initial_newlines)

/-- Rust's `format!("{s:<width$}")`: left-justify `s` by appending spaces up
to `width` (no truncation when `s` is already at least that long). -/
def padTo (s : Str) (width : Nat) : Str :=
  s ++ List.replicate (width - s.length) ' '

/-- The `.max().unwrap_or(0)` of the input lines' `chars().count()` in
soulver.rs `run_soulver_zipped` (for `Nat`, the fold below is that maximum,
and it is `0` on the empty list). -/
def longest_input_line_length (input_lines : List Str) : Nat :=
  (input_lines.map List.length).foldr max 0

/-- One row of the zipped report, without its terminating newline: the
format strings `"{input_line:<width$} |"` and
`"{input_line:<width$} | {output_line}"` of soulver.rs lines 55-64. -/
def render_row (width : Nat) (input_line output_line : Str) : Str :=
  if output_line.isEmpty then padTo input_line width ++ [' ', '|']
  else padTo input_line width ++ [' ', '|', ' '] ++ output_line

/-- soulver.rs `run_soulver_zipped`: trim, evaluate via `run_soulver`,
split both texts into lines, require equal line counts (`ensure!`), render
each pair as a newline-terminated row, and pop the final `'\n'`. -/
def run_soulver_zipped (soulver : SoulverOracle) (file : Str) : Except SoulverError Str :=
  let trimmed_input := trimEnd file
  match run_soulver soulver trimmed_input with
  | .error e => .error e
  | .ok output =>
    let output_lines := strLines output
    let input_lines := strLines trimmed_input
    let longest := longest_input_line_length input_lines
    if input_lines.length = output_lines.length then
      let out : Str :=
        ((input_lines.zip output_lines).map
          (fun p => render_row longest p.1 p.2 ++ ['\n'])).flatten
      .ok (if out.getLast? = some '\n' then out.dropLast else out)
    else
      .error .misalignment

/-- Trimming the trailing space characters of a string (the spec's
"trimming trailing spaces" in its width-idempotence property). -/
def trimTrailingSpaces (s : Str) : Str :=
  (s.reverse.dropWhile (· = ' ')).reverse

/-- Joining a list of rows with exactly one newline between consecutive
rows, with no leading and no trailing newline added. -/
def joinWithNewline : List Str → Str
  | [] => []
  | [r] => r
  | r :: rs => r ++ '\n' :: joinWithNewline rs

theorem takeWhile_append_all {α : Type} {p : α → Bool} (pre rest : List α)
    (hpre : ∀ l ∈ pre, p l = true) :
    (pre ++ rest).takeWhile p = pre ++ rest.takeWhile p := by
  induction pre with
  | nil => simp
  | cons a t ih =>
    have ha := hpre a (by simp)
    have ht : ∀ l ∈ t, p l = true := fun l hl => hpre l (by simp [hl])
    simp [List.takeWhile_cons, ha, ih ht]

theorem strLines_newline_cons (cs : Str) : strLines ('\n' :: cs) = [] :: strLines cs := rfl

theorem strLines_replicate_newline (n : Nat) (s : Str) :
    strLines (List.replicate n '\n' ++ s) = List.replicate n [] ++ strLines s := by
  induction n with
  | zero => simp
  | succ k ih => simp [List.replicate_succ, strLines_newline_cons, ih]

theorem dropWhile_idem {α : Type} (p : α → Bool) (l : List α) :
    (l.dropWhile p).dropWhile p = l.dropWhile p := by
  induction l with
  | nil => rfl
  | cons a t ih =>
    cases h : p a with
    | true => simp [List.dropWhile_cons, h, ih]
    | false => simp [List.dropWhile_cons, h]

theorem trimEnd_idem (s : Str) : trimEnd (trimEnd s) = trimEnd s := by
  unfold trimEnd
  rw [List.reverse_reverse, dropWhile_idem]

/-- C1: `get_number_of_initial_newlines` returns the length of the longest
prefix of consecutive blank-or-comment lines: on `pre ++ rest` where every
line of `pre` is blank-or-comment and the first line of `rest` (when there
is one) is not, it returns `pre.length` — it stops at that first
non-satisfying line (or at the end), and no later line affects the count. -/
theorem c1_leading_count (pre rest : List Str)
    (hpre : ∀ l ∈ pre, isBlankOrComment l = true)
    (hrest : ∀ l ∈ rest.take 1, isBlankOrComment l = false) :
    get_number_of_initial_newlines (pre ++ rest) = pre.length := by
  unfold get_number_of_initial_newlines
  rw [takeWhile_append_all pre rest hpre]
  cases rest with
  | nil => simp
  | cons l r =>
    have hl := hrest l (by simp)
    simp [List.takeWhile_cons, hl]

/-- Witness for C1: a document with three leading blank/comment lines,
then a value line, then one more comment line that must not be counted. -/
theorem c1_leading_count_witness :
    get_number_of_initial_newlines
      ([[], "# Foo".data, "// Bar".data] ++ ["1".data, "# after".data]) = 3 := by
  have h := c1_leading_count [[], "# Foo".data, "// Bar".data] ["1".data, "# after".data]
    (by decide) (by decide)
  simpa using h

/-- C2: the repair step prepends exactly `n` newline characters — hence
exactly `n` empty lines — to the front of the raw output text and leaves
every other line unchanged; with `n = 0` the raw output is returned
unchanged (it is a pure function of its two arguments). -/
theorem c2_repair_prepends (s : Str) (n : Nat) :
    repair s n = List.replicate n '\n' ++ s ∧
    strLines (repair s n) = List.replicate n [] ++ strLines s ∧
    repair s 0 = s := by
  have h1 : repair s n = List.replicate n '\n' ++ s := by
    unfold repair
    cases n with
    | zero => simp
    | succ k => simp
  refine ⟨h1, ?_, by simp [repair]⟩
  rw [h1, strLines_replicate_newline]

/-- C5: each rendered row is the input line, then padding spaces up to the
column width, then one space and the pipe, and after the pipe nothing when
the output line is empty, or one space and the output line otherwise. -/
theorem c5_row_shape (width : Nat) (i o : Str) :
    render_row width i o =
      i ++ List.replicate (width - i.length) ' ' ++
        (if o = [] then [' ', '|'] else [' ', '|', ' '] ++ o) := by
  cases o with
  | nil => simp [render_row, padTo]
  | cons c t => simp [render_row, padTo]

/-- C7 counterexample: for the document whose single line is `"a "` (which
ends in a space), the computed width is 2, padding adds nothing, and
trimming trailing spaces yields `"a"`, not the original line `"a "`. -/
theorem c7_pad_trim_counterexample :
    ¬ (∀ (lines : List Str), ∀ l ∈ lines,
        trimTrailingSpaces (padTo l (longest_input_line_length lines)) = l) := by
  intro h
  have h1 := h [['a', ' ']] ['a', ' '] (by simp)
  have h2 : trimTrailingSpaces (padTo ['a', ' ']
      (longest_input_line_length [['a', ' ']])) = ['a'] := by decide
  rw [h2] at h1
  exact absurd h1 (by decide)

theorem dropWhile_replicate_append {xs : Str} (k : Nat) :
    (List.replicate k ' ' ++ xs).dropWhile (· = ' ') = xs.dropWhile (· = ' ') := by
  induction k with
  | zero => simp
  | succ m ih => simp [List.replicate_succ, List.dropWhile_cons, ih]

/-- C7 amended: for every line of the document that does not itself end in
a space character, left-padding it with spaces to the computed column width
and then trimming trailing spaces returns the original line. -/
theorem c7_pad_trim_amended (lines : List Str) (l : Str) (_hl : l ∈ lines)
    (hlast : l.getLast? ≠ some ' ') :
    trimTrailingSpaces (padTo l (longest_input_line_length lines)) = l := by
  unfold trimTrailingSpaces padTo
  rw [List.reverse_append, List.reverse_replicate, dropWhile_replicate_append]
  have hd : l.reverse.dropWhile (· = ' ') = l.reverse := by
    cases hrev : l.reverse with
    | nil => rfl
    | cons a t =>
      have ha : l.getLast? = some a := by
        rw [← List.head?_reverse, hrev]; rfl
      have hne : (a = ' ') = False := by
        simp only [eq_iff_iff, iff_false]
        intro hcontra
        exact hlast (hcontra ▸ ha)
      simp [List.dropWhile_cons, hne]
  rw [hd, List.reverse_reverse]

/-- Witness for C7 amended: the comment line `"# Foo"` in a document whose
width is 8 survives the pad-then-trim round trip. -/
theorem c7_pad_trim_amended_witness :
    trimTrailingSpaces (padTo "# Foo".data
      (longest_input_line_length ["Bar = £1".data, "# Foo".data])) = "# Foo".data :=
  c7_pad_trim_amended ["Bar = £1".data, "# Foo".data] "# Foo".data (by decide) (by decide)

/-- C8: both operations trim trailing whitespace from the whole document
first and depend only on the trimmed text: running either on any input
equals running it on the input with its trailing whitespace removed. -/
theorem c8_trim_first (soulver : SoulverOracle) (file : Str) :
    run_soulver soulver file = run_soulver soulver (trimEnd file) ∧
    run_soulver_zipped soulver file = run_soulver_zipped soulver (trimEnd file) := by
  have h := trimEnd_idem file
  constructor
  · unfold run_soulver
    rw [h]
  · unfold run_soulver_zipped
    rw [h]

/-- C3: when the trimmed input's line count differs from the realigned
output's line count, the zipped operation fails with the misalignment error
and renders nothing (no partial, truncated, or padded zipping). -/
theorem c3_misalignment (soulver : SoulverOracle) (file output : Str)
    (h : run_soulver soulver (trimEnd file) = .ok output)
    (hne : (strLines (trimEnd file)).length ≠ (strLines output).length) :
    run_soulver_zipped soulver file = .error .misalignment := by
  simp only [run_soulver_zipped, h]
  rw [if_neg hne]

/-- Witness for C3: a one-line input whose evaluator answer has two lines. -/
theorem c3_misalignment_witness :
    run_soulver_zipped (fun _ => some ⟨true, some ['1', '\n', '2']⟩) ['x']
      = .error .misalignment :=
  c3_misalignment (fun _ => some ⟨true, some ['1', '\n', '2']⟩) ['x'] ['1', '\n', '2']
    rfl (by decide)

theorem le_longest_of_mem {lines : List Str} {l : Str} (hl : l ∈ lines) :
    l.length ≤ longest_input_line_length lines := by
  induction lines with
  | nil => cases hl
  | cons a t ih =>
    have hc : longest_input_line_length (a :: t) =
        max a.length (longest_input_line_length t) := rfl
    rw [hc]
    rcases List.mem_cons.mp hl with h | h
    · subst h
      exact Nat.le_max_left _ _
    · exact le_trans (ih h) (Nat.le_max_right _ _)

theorem exists_longest_mem {lines : List Str} (h : lines ≠ []) :
    ∃ l ∈ lines, l.length = longest_input_line_length lines := by
  induction lines with
  | nil => exact absurd rfl h
  | cons a t ih =>
    have hc : longest_input_line_length (a :: t) =
        max a.length (longest_input_line_length t) := rfl
    cases t with
    | nil =>
      refine ⟨a, by simp, ?_⟩
      rw [hc]
      simp [longest_input_line_length]
    | cons b t' =>
      obtain ⟨l, hl, hlen⟩ := ih (by simp)
      rcases Nat.le_total (longest_input_line_length (b :: t')) a.length with hle | hle
      · exact ⟨a, by simp, by rw [hc, Nat.max_eq_left hle]⟩
      · exact ⟨l, by simp [hl], by rw [hc, Nat.max_eq_right hle, hlen]⟩

/-- C4: the column width is the maximum over the input lines of their
length in Unicode scalar values (`chars().count()`), `0` for no lines; on
the lines `"Bar = £1"` (8 scalar values, 9 bytes) and `"# Foo"` (5 scalar
values) the width is 8 and `"# Foo"` gets exactly 3 trailing pad spaces. -/
theorem c4_width (lines : List Str) :
    (∀ l ∈ lines, l.length ≤ longest_input_line_length lines) ∧
    (lines = [] ∨ ∃ l ∈ lines, l.length = longest_input_line_length lines) ∧
    longest_input_line_length ([] : List Str) = 0 ∧
    longest_input_line_length ["Bar = £1".data, "# Foo".data] = 8 ∧
    padTo "# Foo".data (longest_input_line_length ["Bar = £1".data, "# Foo".data])
      = "# Foo".data ++ [' ', ' ', ' '] := by
  refine ⟨fun l hl => le_longest_of_mem hl, ?_, by decide, by decide, by decide⟩
  cases h : lines with
  | nil => exact Or.inl rfl
  | cons a t => exact Or.inr (h ▸ exists_longest_mem (by simp [h]))

/-- C9: a non-zero evaluator exit status makes the raw call, the plain
operation and the zipped operation all fail with the exit error — even when
the captured stdout is undecodable, nothing of it is decoded or used. -/
theorem c9_exit_error (soulver : SoulverOracle) (file : Str) (out : EvalResult)
    (hcall : soulver (trimEnd file) = some out)
    (hfail : out.success = false) :
    run_raw_soulver soulver (trimEnd file) = .error .exitError ∧
    run_soulver soulver file = .error .exitError ∧
    run_soulver_zipped soulver file = .error .exitError := by
  have h1 : run_raw_soulver soulver (trimEnd file) = .error .exitError := by
    unfold run_raw_soulver
    rw [hcall]
    simp [hfail]
  have h2' : run_soulver soulver (trimEnd file) = .error .exitError := by
    simp only [run_soulver, trimEnd_idem, h1]
  refine ⟨h1, ?_, ?_⟩
  · simp only [run_soulver, h1]
  · simp only [run_soulver_zipped, h2']

/-- Witness for C9: an evaluator that exits unsuccessfully with
undecodable stdout. -/
theorem c9_exit_error_witness :
    run_raw_soulver (fun _ => some ⟨false, none⟩) (trimEnd ['x']) = .error .exitError ∧
    run_soulver (fun _ => some ⟨false, none⟩) ['x'] = .error .exitError ∧
    run_soulver_zipped (fun _ => some ⟨false, none⟩) ['x'] = .error .exitError :=
  c9_exit_error (fun _ => some ⟨false, none⟩) ['x'] ⟨false, none⟩ rfl rfl

/-- C10: on successfully decoded stdout `s`, `run_raw_soulver` returns `s`
with exactly one trailing newline removed when one is present and `s`
unchanged otherwise; when `s` ends in two or more newlines the result still
ends in a newline. -/
theorem c10_strip_one_trailing_newline (soulver : SoulverOracle) (file s : Str)
    (hcall : soulver file = some ⟨true, some s⟩) :
    ∃ r, run_raw_soulver soulver file = .ok r ∧
      (s.getLast? = some '\n' → s = r ++ ['\n']) ∧
      (s.getLast? ≠ some '\n' → r = s) ∧
      (∀ t, s = t ++ ['\n', '\n'] → r.getLast? = some '\n') := by
  refine ⟨if s.getLast? = some '\n' then s.dropLast else s, ?_, ?_, ?_, ?_⟩
  · unfold run_raw_soulver
    rw [hcall]
    simp
  · intro hlast
    rw [if_pos hlast]
    exact (List.dropLast_append_getLast? '\n' (Option.mem_def.mpr hlast)).symm
  · intro hlast
    rw [if_neg hlast]
  · intro t ht
    subst ht
    have heq : t ++ ['\n', '\n'] = (t ++ ['\n']) ++ ['\n'] := by simp
    rw [heq, List.getLast?_concat, if_pos rfl, List.dropLast_concat, List.getLast?_concat]

/-- Witness for C10: stdout `"a\n\n"` is normalised to `"a\n"`. -/
theorem c10_strip_one_trailing_newline_witness :
    ∃ r, run_raw_soulver (fun _ => some ⟨true, some ['a', '\n', '\n']⟩) ['x'] = .ok r ∧
      ((['a', '\n', '\n'] : Str).getLast? = some '\n' → ['a', '\n', '\n'] = r ++ ['\n']) ∧
      ((['a', '\n', '\n'] : Str).getLast? ≠ some '\n' → r = ['a', '\n', '\n']) ∧
      (∀ t, (['a', '\n', '\n'] : Str) = t ++ ['\n', '\n'] → r.getLast? = some '\n') :=
  c10_strip_one_trailing_newline (fun _ => some ⟨true, some ['a', '\n', '\n']⟩) ['x']
    ['a', '\n', '\n'] rfl

theorem strLines_crlf_cons (cs : Str) : strLines ('\r' :: '\n' :: cs) = [] :: strLines cs := rfl

theorem joinWithNewline_cons_cons (r s : Str) (rs : List Str) :
    joinWithNewline (r :: s :: rs) = r ++ '\n' :: joinWithNewline (s :: rs) := rfl

theorem strLines_no_newline (cs : Str) : ∀ l ∈ strLines cs, '\n' ∉ l := by
  induction cs using strLines.induct with
  | case1 => simp [strLines.eq_1]
  | case2 cs ih =>
    rw [strLines_crlf_cons]
    intro l hl
    rcases List.mem_cons.mp hl with h | h
    · subst h; simp
    · exact ih l h
  | case3 cs ih =>
    rw [strLines_newline_cons]
    intro l hl
    rcases List.mem_cons.mp hl with h | h
    · subst h; simp
    · exact ih l h
  | case4 c cs h1 h2 heq ih =>
    rw [strLines.eq_4 c cs h1 h2, heq]
    intro l hl
    simp only [List.mem_singleton] at hl
    subst hl
    simp only [List.mem_singleton]
    intro hc
    exact h2 hc.symm
  | case5 c cs h1 h2 l0 ls heq ih =>
    rw [strLines.eq_4 c cs h1 h2, heq]
    intro l hl
    simp only [List.mem_cons] at hl
    rcases hl with h | h
    · subst h
      intro hmem
      rcases List.mem_cons.mp hmem with hc | hc
      · exact h2 hc.symm
      · exact ih l0 (heq ▸ List.mem_cons_self l0 ls) hc
    · exact ih l (heq ▸ List.mem_cons_of_mem l0 h)

theorem flatten_newline_rows_getLast (r : Str) (rs : List Str) :
    (((r :: rs).map (fun x => x ++ ['\n'])).flatten).getLast? = some '\n' := by
  induction rs generalizing r with
  | nil => simp [List.getLast?_concat]
  | cons s rs' ih =>
    simp only [List.map_cons, List.flatten_cons]
    rw [List.getLast?_append_of_ne_nil]
    · exact ih s
    · simp

theorem strip_flatten_eq_joinWithNewline (rows : List Str) :
    (if ((rows.map (fun x => x ++ ['\n'])).flatten).getLast? = some '\n'
      then ((rows.map (fun x => x ++ ['\n'])).flatten).dropLast
      else (rows.map (fun x => x ++ ['\n'])).flatten) = joinWithNewline rows := by
  induction rows with
  | nil => simp [joinWithNewline]
  | cons r rs ih =>
    rw [if_pos (flatten_newline_rows_getLast r rs)]
    cases rs with
    | nil => simp [joinWithNewline, List.dropLast_concat]
    | cons s rs' =>
      have hne : (((s :: rs').map (fun x => x ++ ['\n'])).flatten) ≠ [] := by simp
      rw [List.map_cons, List.flatten_cons, List.dropLast_append_of_ne_nil _ hne]
      rw [if_pos (flatten_newline_rows_getLast s rs')] at ih
      rw [ih, joinWithNewline_cons_cons]
      simp [List.append_assoc]

theorem joinWithNewline_ne_nil (r : Str) (rs : List Str) (hr : r ≠ []) :
    joinWithNewline (r :: rs) ≠ [] := by
  cases rs with
  | nil => exact hr
  | cons s rs' =>
    rw [joinWithNewline_cons_cons]
    simp

theorem joinWithNewline_no_edge (rows : List Str)
    (h : ∀ r ∈ rows, r ≠ [] ∧ '\n' ∉ r) :
    (joinWithNewline rows).head? ≠ some '\n' ∧
    (joinWithNewline rows).getLast? ≠ some '\n' := by
  induction rows with
  | nil => simp [joinWithNewline]
  | cons r rs ih =>
    obtain ⟨hrne, hrnn⟩ := h r (by simp)
    cases rs with
    | nil =>
      constructor
      · intro hc
        exact hrnn (List.mem_of_mem_head? (Option.mem_def.mpr hc))
      · intro hc
        exact hrnn (List.mem_of_getLast?_eq_some hc)
    | cons s rs' =>
      have hs := h s (by simp)
      have htail := ih (fun x hx => h x (List.mem_cons_of_mem r hx))
      rw [joinWithNewline_cons_cons]
      constructor
      · cases r with
        | nil => exact absurd rfl hrne
        | cons a t =>
          simp only [List.cons_append, List.head?_cons]
          intro hc
          injection hc with hc
          subst hc
          exact hrnn (List.mem_cons_self _ _)
      · rw [List.getLast?_append_of_ne_nil r (by simp)]
        have hjw : joinWithNewline (s :: rs') ≠ [] := joinWithNewline_ne_nil s rs' hs.1
        cases hj : joinWithNewline (s :: rs') with
        | nil => exact absurd hj hjw
        | cons b u =>
          rw [List.getLast?_cons_cons]
          have hgl := htail.2
          rw [hj] at hgl
          exact hgl

theorem render_row_ne_nil (w : Nat) (i o : Str) : render_row w i o ≠ [] := by
  unfold render_row padTo
  cases o with
  | nil => simp
  | cons c t => simp

theorem render_row_no_newline (w : Nat) (i o : Str)
    (hi : '\n' ∉ i) (ho : '\n' ∉ o) : '\n' ∉ render_row w i o := by
  unfold render_row padTo
  cases o with
  | nil =>
    simp only [List.isEmpty_nil, if_true]
    intro hmem
    rcases List.mem_append.mp hmem with h1 | h2
    · rcases List.mem_append.mp h1 with ha | hb
      · exact hi ha
      · exact absurd (List.eq_of_mem_replicate hb) (by decide)
    · exact absurd h2 (by decide)
  | cons c t =>
    simp only [List.isEmpty_cons, if_false]
    intro hmem
    rcases List.mem_append.mp hmem with h1 | h2
    · rcases List.mem_append.mp h1 with ha | hb
      · rcases List.mem_append.mp ha with hc | hd
        · exact hi hc
        · exact absurd (List.eq_of_mem_replicate hd) (by decide)
      · exact absurd hb (by decide)
    · exact ho h2

/-- C6: a successful zipped run returns exactly the rendered rows joined by
one newline between consecutive rows — the trailing newline left by per-row
concatenation is removed — and the result neither starts nor ends with a
newline. -/
theorem c6_assembly (soulver : SoulverOracle) (file output res : Str)
    (hout : run_soulver soulver (trimEnd file) = .ok output)
    (hres : run_soulver_zipped soulver file = .ok res) :
    res = joinWithNewline
        (((strLines (trimEnd file)).zip (strLines output)).map
          (fun p => render_row (longest_input_line_length (strLines (trimEnd file))) p.1 p.2)) ∧
    res.head? ≠ some '\n' ∧ res.getLast? ≠ some '\n' := by
  simp only [run_soulver_zipped, hout] at hres
  by_cases hlen : (strLines (trimEnd file)).length = (strLines output).length
  case neg =>
    rw [if_neg hlen] at hres
    simp at hres
  case pos =>
    rw [if_pos hlen] at hres
    simp only [Except.ok.injEq] at hres
    subst hres
    have hmapmap :
        ((strLines (trimEnd file)).zip (strLines output)).map
            (fun p => render_row (longest_input_line_length (strLines (trimEnd file))) p.1 p.2
              ++ ['\n'])
          = (((strLines (trimEnd file)).zip (strLines output)).map
              (fun p => render_row (longest_input_line_length (strLines (trimEnd file)))
                p.1 p.2)).map (fun x => x ++ ['\n']) := by
      rw [List.map_map]
      rfl
    have hcond : ∀ r ∈ ((strLines (trimEnd file)).zip (strLines output)).map
        (fun p => render_row (longest_input_line_length (strLines (trimEnd file))) p.1 p.2),
        r ≠ [] ∧ '\n' ∉ r := by
      intro r hr
      obtain ⟨p, hp, hpr⟩ := List.mem_map.mp hr
      obtain ⟨hp1, hp2⟩ := List.of_mem_zip hp
      subst hpr
      exact ⟨render_row_ne_nil _ _ _,
        render_row_no_newline _ _ _ (strLines_no_newline _ _ hp1)
          (strLines_no_newline _ _ hp2)⟩
    rw [hmapmap, strip_flatten_eq_joinWithNewline]
    exact ⟨rfl, (joinWithNewline_no_edge _ hcond).1, (joinWithNewline_no_edge _ hcond).2⟩

/-- Witness for C6: a two-line input zipped with a two-line evaluator
answer assembles to `"a  | 4\nbb | 5"`. -/
theorem c6_assembly_witness :
    "a  | 4\nbb | 5".data = joinWithNewline
        (((strLines (trimEnd "a\nbb".data)).zip (strLines "4\n5".data)).map
          (fun p => render_row (longest_input_line_length (strLines (trimEnd "a\nbb".data)))
            p.1 p.2)) ∧
    ("a  | 4\nbb | 5".data).head? ≠ some '\n' ∧
    ("a  | 4\nbb | 5".data).getLast? ≠ some '\n' :=
  c6_assembly (fun _ => some ⟨true, some "4\n5".data⟩) "a\nbb".data "4\n5".data
    "a  | 4\nbb | 5".data rfl rfl
